import Mathlib

/-!
Verification development for the CSSE2310 "Austerity" card-game system.

The definitions below are a shallow embedding of the game-rule library
`src/ass3/lib/game.c` (shared by hub and players) and of the networked
server `src/ass4/server.c` / `src/ass4/shared.c`.  C `int` values are
embedded as `Int`; C arrays indexed by the four non-wild colours become
functions `CardColour → Int`; the extra `WILD` slot of a five-slot token
array becomes a separate field.  Functions from the course-provided 2310
library (not part of the repository sources) are modelled from the spec
and marked as such in their doc comments.
-/

namespace Ass3

/-- CardColour enum from game.h: PURPLE, BROWN, YELLOW, RED (the wild
slot of a five-element token array is kept as a separate field). -/
inductive CardColour where
  | PURPLE
  | BROWN
  | YELLOW
  | RED
deriving DecidableEq, Fintype, Repr

/-- Enumeration order of the four colours, matching the C loops
`for (i = 0; i < NUM_COLOURS; i++)`. -/
def colourList : List CardColour :=
  [CardColour.PURPLE, CardColour.BROWN, CardColour.YELLOW, CardColour.RED]

/-- TOKENS_PER_TAKE from game.h. -/
def TOKENS_PER_TAKE : Nat := 3

/-- Card struct from game.h: discount colour, point value, price per colour. -/
structure Card where
  discount : CardColour
  value : Int
  price : CardColour → Int
deriving DecidableEq

instance : Inhabited Card := ⟨⟨CardColour.PURPLE, 0, fun _ => 0⟩⟩

/-- Player struct from game.h (the hub-only stream fields are omitted).
The five-slot `tokens` array is split into its four colour slots and the
`tokens[WILD]` slot `wildTokens`. -/
structure Player where
  totalPoints : Int
  discounts : CardColour → Int
  tokens : CardColour → Int
  wildTokens : Int
deriving DecidableEq

instance : Inhabited Player := ⟨⟨0, fun _ => 0, fun _ => 0, 0⟩⟩

/-- A five-slot token tuple `int tokens[TOKEN_SLOTS]` as passed to
`can_tokens_buy_card` / `player_purchased_card`: the four colour slots
plus the `WILD` slot. -/
structure TokenVec where
  colour : CardColour → Int
  wild : Int
deriving DecidableEq

/-- Game struct from game.h: board token piles, face-up cards (index 0
oldest; `cardsFacedUp` is the list length), players.  Deck and process
bookkeeping fields are irrelevant to the verified rules and omitted. -/
structure Game where
  maxPoints : Int
  tokens : CardColour → Int
  cards : List Card
  players : List Player
deriving DecidableEq

/-- The per-colour token requirement computed identically in
`can_player_afford_card`, `choose_tokens_to_buy_card` and
`get_wilds_needed_for_card`:
`tokensNeeded = card.price[i] - player.discounts[i]` clamped to `≥ 0`. -/
def tokens_needed (card : Card) (player : Player) (c : CardColour) : Int :=
  max 0 (card.price c - player.discounts c)

/-- Loop body of `can_player_afford_card` (game.c lines 369-397): walk the
colours keeping a running count `wildsUsed` of wilds committed so far;
a colour whose requirement exceeds the tokens held by the player must be
covered by the remaining wilds, otherwise the card is unaffordable. -/
def afford_loop (card : Card) (player : Player) :
    List CardColour → Int → Bool
  | [], _ => true
  | c :: rest, wildsUsed =>
    let tn := tokens_needed card player c
    if player.tokens c ≥ tn then
      afford_loop card player rest wildsUsed
    else if player.wildTokens > 0 ∧
        player.tokens c + (player.wildTokens - wildsUsed) ≥ tn then
      afford_loop card player rest (wildsUsed + (tn - player.tokens c))
    else
      false

/-- can_player_afford_card from game.c (lines 369-397). -/
def can_player_afford_card (card : Card) (player : Player) : Bool :=
  afford_loop card player colourList 0

/-- choose_tokens_to_buy_card from game.c (lines 305-325): the canonical
spending decomposition, using as few wilds as possible.  Each colour slot
gets `tokensNeeded` capped at what the player holds in that colour; the
wild slot accumulates every shortfall. -/
def choose_tokens_to_buy_card (card : Card) (player : Player) : TokenVec :=
  { colour := fun c =>
      let tn := tokens_needed card player c
      if tn > player.tokens c then player.tokens c else tn
    wild :=
      (colourList.map (fun c =>
        let tn := tokens_needed card player c
        if tn > player.tokens c then tn - player.tokens c else 0)).sum }

/-- can_tokens_buy_card from game.c (lines 411-429): a purchase request is
valid iff the player can afford the card and the request equals the
canonical decomposition slot for slot. -/
def can_tokens_buy_card (card : Card) (player : Player)
    (tokens : TokenVec) : Bool :=
  if !can_player_afford_card card player then
    false
  else
    let correctTokens := choose_tokens_to_buy_card card player
    colourList.all (fun c => correctTokens.colour c == tokens.colour c) &&
      (correctTokens.wild == tokens.wild)

/-- Loop of is_valid_token_take (game.c lines 440-451): count colours
taken (an entry of 1 on a non-empty pile); any other non-zero entry makes
the take invalid (`none`). -/
def take_loop (g : Game) (tokens : CardColour → Int) :
    List CardColour → Nat → Option Nat
  | [], numTaken => some numTaken
  | c :: rest, numTaken =>
    if tokens c = 1 ∧ g.tokens c > 0 then
      take_loop g tokens rest (numTaken + 1)
    else if tokens c ≠ 0 then
      none
    else
      take_loop g tokens rest numTaken

/-- is_valid_token_take from game.c (lines 440-451). -/
def is_valid_token_take (g : Game) (tokens : CardColour → Int) : Bool :=
  match take_loop g tokens colourList 0 with
  | none => false
  | some numTaken => numTaken == TOKENS_PER_TAKE

/-- can_tokens_be_taken from game.c (lines 351-360): at least three
non-empty piles must exist on the board. -/
def can_tokens_be_taken (g : Game) : Bool :=
  TOKENS_PER_TAKE ≤ colourList.countP (fun c => decide (g.tokens c > 0))

/-- In-place update of the n-th element of a list, as done by the C code
via array indexing (`game->players[playerId]`). -/
def updateAt {α : Type} (n : Nat) (f : α → α) : List α → List α
  | [] => []
  | x :: xs =>
    match n with
    | 0 => f x :: xs
    | m + 1 => x :: updateAt m f xs

/-- take_card_from_board from game.c (lines 178-189): the C loop copies
`cards[i+1]` into `cards[i]` for every `i ≥ cardId` and decrements
`cardsFacedUp`, which on the list of face-up cards is exactly removal of
the element at index `cardId`. -/
def take_card_from_board (g : Game) (cardId : Nat) : Game :=
  { g with cards := g.cards.eraseIdx cardId }

/-- player_purchased_card from game.c (lines 479-496): remove the card
from the board, move the spent tokens from the player back to the board
piles (wilds go to no pile: the board has no wild pile), and credit the
discount colour and point value of the card to the buyer. -/
def player_purchased_card (g : Game) (playerId cardId : Nat)
    (tokens : TokenVec) : Game :=
  let card := g.cards.getD cardId default
  let g1 := take_card_from_board g cardId
  { g1 with
    tokens := fun c => g.tokens c + tokens.colour c
    players := updateAt playerId (fun p =>
      { totalPoints := p.totalPoints + card.value
        discounts := fun c =>
          if c = card.discount then p.discounts c + 1 else p.discounts c
        tokens := fun c => p.tokens c - tokens.colour c
        wildTokens := p.wildTokens - tokens.wild }) g.players }

/-- player_took_tokens from game.c (lines 508-515): add the taken colour
tokens to the piles of the player and remove them from the board piles. -/
def player_took_tokens (g : Game) (playerId : Nat)
    (tokens : CardColour → Int) : Game :=
  { g with
    tokens := fun c => g.tokens c - tokens c
    players := updateAt playerId (fun p =>
      { p with tokens := fun c => p.tokens c + tokens c }) g.players }

/-- player_took_wild from game.c (lines 524-526): increment the wild pile
of the player by one; the board is untouched. -/
def player_took_wild (g : Game) (playerId : Nat) : Game :=
  { g with
    players := updateAt playerId (fun p =>
      { p with wildTokens := p.wildTokens + 1 }) g.players }

/-- add_card_to_board from game.c (lines 165-168): append at
`cards[cardsFacedUp]`. -/
def add_card_to_board (g : Game) (card : Card) : Game :=
  { g with cards := g.cards ++ [card] }

/-- set_initial_game_tokens from game.c (lines 459-463). -/
def set_initial_game_tokens (g : Game) (initialTokens : Int) : Game :=
  { g with tokens := fun _ => initialTokens }

/-- The per-colour shortfall `max(0, need[c] - tokens[c])` of the spec,
where `need[c] = tokens_needed`. -/
def deficit (card : Card) (player : Player) (c : CardColour) : Int :=
  max 0 (tokens_needed card player c - player.tokens c)

/-- Sum over the four non-wild colours of the shortfall: the number of
wilds a purchase of this card must spend. -/
def deficit_sum (card : Card) (player : Player) : Int :=
  (colourList.map (deficit card player)).sum

/-- The conserved quantity of the token-conservation invariant: board
pile of colour `c` plus what every player holds of colour `c`. -/
def colour_total (g : Game) (c : CardColour) : Int :=
  g.tokens c + (g.players.map (fun p => p.tokens c)).sum

/-- Total number of wild tokens held by the players. -/
def wild_total (g : Game) : Int :=
  (g.players.map (fun p => p.wildTokens)).sum

/-- States reachable by the game loop of the hub: a freshly set up game
(`setup_game` zeroes the tokens of every player, `set_initial_game_tokens`
fills each board pile with `initialTokens`), closed under drawing a card
onto the board and under the three validated move applications. -/
inductive Reachable (initialTokens : Int) : Game → Prop where
  | init (g : Game)
      (htok : ∀ c, g.tokens c = initialTokens)
      (hpl : ∀ p ∈ g.players, ∀ c, p.tokens c = 0) :
      Reachable initialTokens g
  | draw (g : Game) (card : Card) (h : Reachable initialTokens g) :
      Reachable initialTokens (add_card_to_board g card)
  | purchase (g : Game) (playerId cardId : Nat) (tokens : TokenVec)
      (hp : playerId < g.players.length)
      (hc : cardId < g.cards.length)
      (hv : can_tokens_buy_card (g.cards.getD cardId default)
        (g.players.getD playerId default) tokens = true)
      (h : Reachable initialTokens g) :
      Reachable initialTokens (player_purchased_card g playerId cardId tokens)
  | take (g : Game) (playerId : Nat) (tokens : CardColour → Int)
      (hp : playerId < g.players.length)
      (hv : is_valid_token_take g tokens = true)
      (h : Reachable initialTokens g) :
      Reachable initialTokens (player_took_tokens g playerId tokens)
  | wild (g : Game) (playerId : Nat)
      (hp : playerId < g.players.length)
      (h : Reachable initialTokens g) :
      Reachable initialTokens (player_took_wild g playerId)

end Ass3

namespace Ass3

lemma mem_colourList (c : CardColour) : c ∈ colourList := by
  cases c <;> simp [colourList]

lemma deficit_nonneg (card : Card) (player : Player) (c : CardColour) :
    0 ≤ deficit card player c :=
  le_max_left 0 _

lemma afford_loop_iff (card : Card) (player : Player) :
    ∀ (cs : List CardColour) (wildsUsed : Int),
    0 ≤ wildsUsed → wildsUsed ≤ player.wildTokens →
    (afford_loop card player cs wildsUsed = true ↔
      wildsUsed + (cs.map (deficit card player)).sum ≤ player.wildTokens) := by
  intro cs
  induction cs with
  | nil =>
    intro w h0 hw
    simpa [afford_loop] using hw
  | cons c rest ih =>
    intro w h0 hw
    simp only [afford_loop, List.map_cons, List.sum_cons]
    split_ifs with h1 h2
    · have hd : deficit card player c = 0 := by
        have hle : tokens_needed card player c - player.tokens c ≤ 0 := by
          omega
        simp [deficit, max_eq_left hle]
      rw [hd, ih w h0 hw]
      omega
    · have hd : deficit card player c =
          tokens_needed card player c - player.tokens c := by
        have hle : (0 : Int) ≤ tokens_needed card player c - player.tokens c := by
          omega
        simp [deficit, max_eq_right hle]
      have h0' : 0 ≤ w + (tokens_needed card player c - player.tokens c) := by
        omega
      have hw' : w + (tokens_needed card player c - player.tokens c) ≤
          player.wildTokens := by
        omega
      rw [hd, ih _ h0' hw']
      omega
    · have hd : deficit card player c =
          tokens_needed card player c - player.tokens c := by
        have hle : (0 : Int) ≤ tokens_needed card player c - player.tokens c := by
          omega
        simp [deficit, max_eq_right hle]
      have hsum : 0 ≤ (rest.map (deficit card player)).sum := by
        apply List.sum_nonneg
        intro x hx
        rcases List.mem_map.mp hx with ⟨d, _, rfl⟩
        exact deficit_nonneg card player d
      rcases not_and_or.mp h2 with h | h
      · have hwz : player.wildTokens ≤ 0 := by omega
        simp only [Bool.false_eq_true, false_iff]
        omega
      · have hlt : player.tokens c + (player.wildTokens - w) <
            tokens_needed card player c := by omega
        simp only [Bool.false_eq_true, false_iff]
        omega

lemma can_player_afford_card_iff (card : Card) (player : Player)
    (hw : 0 ≤ player.wildTokens) :
    can_player_afford_card card player = true ↔
      deficit_sum card player ≤ player.wildTokens := by
  have h := afford_loop_iff card player colourList 0 le_rfl hw
  rw [can_player_afford_card, h, deficit_sum]
  omega

lemma choose_colour_eq_min (card : Card) (player : Player) (c : CardColour) :
    (choose_tokens_to_buy_card card player).colour c =
      min (tokens_needed card player c) (player.tokens c) := by
  simp only [choose_tokens_to_buy_card]
  rcases le_or_lt (tokens_needed card player c) (player.tokens c) with h | h
  · rw [if_neg (by omega), min_eq_left h]
  · rw [if_pos (by omega), min_eq_right (by omega)]

lemma choose_wild_eq_deficit_sum (card : Card) (player : Player) :
    (choose_tokens_to_buy_card card player).wild = deficit_sum card player := by
  simp only [choose_tokens_to_buy_card, deficit_sum]
  congr 1
  apply List.map_congr_left
  intro c _
  rcases le_or_lt (tokens_needed card player c) (player.tokens c) with h | h
  · rw [if_neg (by omega)]
    have hle : tokens_needed card player c - player.tokens c ≤ 0 := by omega
    simp [deficit, max_eq_left hle]
  · rw [if_pos (by omega)]
    have hle : (0 : Int) ≤ tokens_needed card player c - player.tokens c := by
      omega
    simp [deficit, max_eq_right hle]

lemma can_tokens_buy_card_iff (card : Card) (player : Player) (t : TokenVec)
    (hw : 0 ≤ player.wildTokens) :
    can_tokens_buy_card card player t = true ↔
      (deficit_sum card player ≤ player.wildTokens
        ∧ (∀ c, t.colour c = min (tokens_needed card player c) (player.tokens c))
        ∧ t.wild = deficit_sum card player) := by
  rw [can_tokens_buy_card]
  by_cases haff : can_player_afford_card card player = true
  · rw [haff]
    simp only [Bool.not_true, Bool.false_eq_true, if_false, Bool.and_eq_true,
      List.all_eq_true, beq_iff_eq]
    rw [can_player_afford_card_iff card player hw] at haff
    constructor
    · rintro ⟨hcols, hwild⟩
      refine ⟨haff, ?_, ?_⟩
      · intro c
        rw [← hcols c (mem_colourList c), choose_colour_eq_min]
      · rw [← hwild, choose_wild_eq_deficit_sum]
    · rintro ⟨_, hcols, hwild⟩
      refine ⟨?_, ?_⟩
      · intro c _
        rw [choose_colour_eq_min, hcols c]
      · rw [choose_wild_eq_deficit_sum, hwild]
  · rw [Bool.not_eq_true] at haff
    rw [haff]
    simp only [Bool.not_false, if_true, Bool.false_eq_true, false_iff]
    rw [Bool.eq_false_iff, Ne, can_player_afford_card_iff card player hw] at haff
    intro hcon
    exact haff hcon.1

lemma take_loop_spec (g : Game) (t : CardColour → Int) :
    ∀ (cs : List CardColour) (acc : Nat),
    take_loop g t cs acc =
      if ∀ c ∈ cs, t c = 0 ∨ (t c = 1 ∧ g.tokens c > 0)
      then some (acc + cs.countP (fun c => t c == 1))
      else none := by
  intro cs
  induction cs with
  | nil =>
    intro acc
    simp [take_loop]
  | cons c rest ih =>
    intro acc
    rw [take_loop, ih, ih]
    by_cases hc1 : t c = 1 ∧ g.tokens c > 0
    · rw [if_pos hc1]
      by_cases hall : ∀ x ∈ rest, t x = 0 ∨ (t x = 1 ∧ g.tokens x > 0)
      · rw [if_pos hall, if_pos (by
          intro x hx
          rcases List.mem_cons.mp hx with rfl | hx
          · exact Or.inr hc1
          · exact hall x hx)]
        have hc : (t c == 1) = true := by
          simp [hc1.1]
        simp only [List.countP_cons, hc, if_true]
        congr 1
        omega
      · rw [if_neg hall, if_neg (by
          intro hcon
          exact hall fun x hx => hcon x (List.mem_cons_of_mem c hx))]
    · rw [if_neg hc1]
      by_cases hcz : t c ≠ 0
      · rw [if_pos hcz, if_neg (by
          intro hcon
          rcases hcon c (List.mem_cons_self c rest) with h | h
          · exact hcz h
          · exact hc1 h)]
      · have hc0 : t c = 0 := by
          by_contra hne
          exact hcz hne
        rw [if_neg hcz]
        by_cases hall : ∀ x ∈ rest, t x = 0 ∨ (t x = 1 ∧ g.tokens x > 0)
        · rw [if_pos hall, if_pos (by
            intro x hx
            rcases List.mem_cons.mp hx with rfl | hx
            · exact Or.inl hc0
            · exact hall x hx)]
          have hc : (t c == 1) = false := by
            simp [hc0]
          simp [List.countP_cons, hc]
        · rw [if_neg hall, if_neg (by
            intro hcon
            exact hall fun x hx => hcon x (List.mem_cons_of_mem c hx))]

lemma is_valid_token_take_iff (g : Game) (t : CardColour → Int) :
    is_valid_token_take g t = true ↔
      ((∀ c, t c = 0 ∨ t c = 1)
        ∧ (∀ c, t c = 1 → g.tokens c > 0)
        ∧ colourList.countP (fun c => t c == 1) = 3) := by
  rw [is_valid_token_take, take_loop_spec]
  by_cases hall : ∀ c ∈ colourList, t c = 0 ∨ (t c = 1 ∧ g.tokens c > 0)
  · rw [if_pos hall]
    simp only [Nat.zero_add, beq_iff_eq, TOKENS_PER_TAKE]
    constructor
    · intro hcount
      refine ⟨?_, ?_, hcount⟩
      · intro c
        rcases hall c (mem_colourList c) with h | h
        · exact Or.inl h
        · exact Or.inr h.1
      · intro c hc1
        rcases hall c (mem_colourList c) with h | h
        · omega
        · exact h.2
    · intro h
      exact h.2.2
  · rw [if_neg hall]
    simp only [Bool.false_eq_true, false_iff]
    intro hcon
    apply hall
    intro c _
    rcases hcon.1 c with h | h
    · exact Or.inl h
    · exact Or.inr ⟨h, hcon.2.1 c h⟩

end Ass3

/-- C1: the buyer can afford a face-up card iff the total colour shortfall
(sum over the four non-wild colours of `max(0, need[c] - tokens[c])`,
where `need[c] = max(0, price[c] - discounts[c])`) is at most the wild
tokens of the buyer; and a purchase request is accepted by `can_tokens_buy_card`
iff the card is affordable and the request equals the canonical
decomposition `spend[c] = min(need[c], tokens[c])`,
`spend[W] = Σ_c max(0, need[c] - tokens[c])` exactly, so wilds are never
accepted in place of an owned coloured token. -/
theorem c1_purchase_affordability_and_canonical (card : Ass3.Card)
    (player : Ass3.Player) (t : Ass3.TokenVec)
    (hw : 0 ≤ player.wildTokens) :
    (Ass3.can_player_afford_card card player = true ↔
      Ass3.deficit_sum card player ≤ player.wildTokens)
    ∧ (Ass3.can_tokens_buy_card card player t = true ↔
      (Ass3.deficit_sum card player ≤ player.wildTokens
        ∧ (∀ c, t.colour c =
            min (Ass3.tokens_needed card player c) (player.tokens c))
        ∧ t.wild = Ass3.deficit_sum card player)) :=
  ⟨Ass3.can_player_afford_card_iff card player hw,
    Ass3.can_tokens_buy_card_iff card player t hw⟩

/-- Concrete player, card and token tuple instantiating `c1`. -/
def w1card : Ass3.Card := ⟨Ass3.CardColour.PURPLE, 1, fun _ => 1⟩

/-- Concrete player holding one purple token and one wild. -/
def w1player : Ass3.Player := ⟨0, fun _ => 0, fun _ => 1, 1⟩

/-- Concrete token tuple for the `c1` witness. -/
def w1tok : Ass3.TokenVec := ⟨fun _ => 1, 0⟩

theorem c1_witness :
    0 ≤ w1player.wildTokens
    ∧ ((Ass3.can_player_afford_card w1card w1player = true ↔
        Ass3.deficit_sum w1card w1player ≤ w1player.wildTokens)
      ∧ (Ass3.can_tokens_buy_card w1card w1player w1tok = true ↔
        (Ass3.deficit_sum w1card w1player ≤ w1player.wildTokens
          ∧ (∀ c, w1tok.colour c =
              min (Ass3.tokens_needed w1card w1player c) (w1player.tokens c))
          ∧ w1tok.wild = Ass3.deficit_sum w1card w1player))) :=
  ⟨by decide,
    c1_purchase_affordability_and_canonical w1card w1player w1tok (by decide)⟩

/-- C2: `is_valid_token_take` accepts a four-entry take request iff every
entry is 0 or 1, every entry that is 1 names a colour whose on-board pile
is non-empty, and exactly three entries are 1; requests with an entry
greater than 1 (or negative), a 1 on an empty pile, or a number of 1s
other than three are rejected. -/
theorem c2_token_take_validity (g : Ass3.Game) (t : Ass3.CardColour → Int) :
    Ass3.is_valid_token_take g t = true ↔
      ((∀ c, t c = 0 ∨ t c = 1)
        ∧ (∀ c, t c = 1 → g.tokens c > 0)
        ∧ Ass3.colourList.countP (fun c => t c == 1) = 3) :=
  Ass3.is_valid_token_take_iff g t

namespace Ass3

lemma updateAt_length {α : Type} (n : Nat) (f : α → α) (l : List α) :
    (updateAt n f l).length = l.length := by
  induction l generalizing n with
  | nil => simp [updateAt]
  | cons x xs ih =>
    cases n with
    | zero => rfl
    | succ m => simp [updateAt, ih]

lemma updateAt_getD_eq {α : Type} (n : Nat) (f : α → α) (l : List α) (d : α)
    (h : n < l.length) :
    (updateAt n f l).getD n d = f (l.getD n d) := by
  induction l generalizing n with
  | nil => simp at h
  | cons x xs ih =>
    cases n with
    | zero => rfl
    | succ m =>
      simp only [updateAt, List.getD_cons_succ]
      exact ih m (by simpa using h)

lemma updateAt_getD_ne {α : Type} (n q : Nat) (f : α → α) (l : List α) (d : α)
    (h : q ≠ n) :
    (updateAt n f l).getD q d = l.getD q d := by
  induction l generalizing n q with
  | nil => simp [updateAt]
  | cons x xs ih =>
    cases n with
    | zero =>
      cases q with
      | zero => exact absurd rfl h
      | succ qq => rfl
    | succ m =>
      cases q with
      | zero => rfl
      | succ qq =>
        simp only [updateAt, List.getD_cons_succ]
        exact ih m qq (by omega)

lemma updateAt_map_sum {α : Type} (n : Nat) (f : α → α) (m : α → Int)
    (l : List α) (d : α) (h : n < l.length) :
    ((updateAt n f l).map m).sum =
      (l.map m).sum + (m (f (l.getD n d)) - m (l.getD n d)) := by
  induction l generalizing n with
  | nil => simp at h
  | cons x xs ih =>
    cases n with
    | zero =>
      simp only [updateAt, List.map_cons, List.sum_cons, List.getD_cons_zero]
      ring
    | succ k =>
      simp only [updateAt, List.map_cons, List.sum_cons, List.getD_cons_succ]
      rw [ih k (by simpa using h)]
      ring

lemma updateAt_map_sum_invariant {α : Type} (n : Nat) (f : α → α)
    (m : α → Int) (l : List α) (hf : ∀ x, m (f x) = m x) :
    ((updateAt n f l).map m).sum = (l.map m).sum := by
  induction l generalizing n with
  | nil => simp [updateAt]
  | cons x xs ih =>
    cases n with
    | zero => simp [updateAt, hf]
    | succ k => simp [updateAt, ih]

lemma colour_total_draw (g : Game) (card : Card) (c : CardColour) :
    colour_total (add_card_to_board g card) c = colour_total g c := rfl

lemma colour_total_purchase (g : Game) (pid cid : Nat) (t : TokenVec)
    (hp : pid < g.players.length) (c : CardColour) :
    colour_total (player_purchased_card g pid cid t) c = colour_total g c := by
  unfold colour_total player_purchased_card take_card_from_board
  simp only []
  rw [updateAt_map_sum pid _ (fun p => p.tokens c) g.players default hp]
  simp only []
  ring

lemma colour_total_take (g : Game) (pid : Nat) (t : CardColour → Int)
    (hp : pid < g.players.length) (c : CardColour) :
    colour_total (player_took_tokens g pid t) c = colour_total g c := by
  unfold colour_total player_took_tokens
  simp only []
  rw [updateAt_map_sum pid _ (fun p => p.tokens c) g.players default hp]
  simp only []
  ring

lemma colour_total_wild (g : Game) (pid : Nat) (c : CardColour) :
    colour_total (player_took_wild g pid) c = colour_total g c := by
  unfold colour_total player_took_wild
  simp only []
  rw [updateAt_map_sum_invariant pid
    (fun p => { p with wildTokens := p.wildTokens + 1 })
    (fun p => p.tokens c) g.players (fun x => rfl)]

lemma wild_total_took_wild (g : Game) (pid : Nat)
    (hp : pid < g.players.length) :
    wild_total (player_took_wild g pid) = wild_total g + 1 := by
  unfold wild_total player_took_wild
  simp only []
  rw [updateAt_map_sum pid _ (fun p => p.wildTokens) g.players default hp]
  simp only []
  ring

end Ass3

/-- C3: in every game state reachable from a fresh game (board piles all
holding `initialTokens`, every player holding zero tokens) by card draws
and the three validated move applications, each non-wild colour `c`
satisfies `boardPool[c] + Σ_p p.tokens[c] = initialTokens`; wild tokens
are not conserved: a wild take strictly increases the total wild holding
of the players while the board is untouched. -/
theorem c3_token_conservation (initialTokens : Int) (g : Ass3.Game)
    (h : Ass3.Reachable initialTokens g) :
    (∀ c, Ass3.colour_total g c = initialTokens)
    ∧ (∀ playerId, playerId < g.players.length →
        Ass3.wild_total (Ass3.player_took_wild g playerId) =
          Ass3.wild_total g + 1) := by
  constructor
  · induction h with
    | init g htok hpl =>
      intro c
      unfold Ass3.colour_total
      rw [htok c]
      have hz : (g.players.map fun p => p.tokens c).sum = 0 := by
        apply List.sum_eq_zero
        intro x hx
        rcases List.mem_map.mp hx with ⟨p, hpmem, rfl⟩
        exact hpl p hpmem c
      rw [hz]
      ring
    | draw g card h ih =>
      intro c
      rw [Ass3.colour_total_draw]
      exact ih c
    | purchase g pid cid t hp hc hv h ih =>
      intro c
      rw [Ass3.colour_total_purchase g pid cid t hp]
      exact ih c
    | take g pid t hp hv h ih =>
      intro c
      rw [Ass3.colour_total_take g pid t hp]
      exact ih c
    | wild g pid hp h ih =>
      intro c
      rw [Ass3.colour_total_wild]
      exact ih c
  · intro pid hpid
    exact Ass3.wild_total_took_wild g pid hpid

/-- Concrete one-player game instantiating `c3`. -/
def w3game : Ass3.Game :=
  ⟨15, fun _ => 5, [], [⟨0, fun _ => 0, fun _ => 0, 7⟩]⟩

theorem c3_witness :
    Ass3.Reachable 5 w3game
    ∧ ((∀ c, Ass3.colour_total w3game c = 5)
      ∧ (∀ playerId, playerId < w3game.players.length →
          Ass3.wild_total (Ass3.player_took_wild w3game playerId) =
            Ass3.wild_total w3game + 1)) :=
  ⟨Ass3.Reachable.init w3game (fun _ => rfl) (by decide),
    c3_token_conservation 5 w3game
      (Ass3.Reachable.init w3game (fun _ => rfl) (by decide))⟩

namespace Ass3

lemma getD_eraseIdx {α : Type} (l : List α) (i j : Nat) (d : α)
    (hj : j < l.length - 1) :
    (l.eraseIdx i).getD j d =
      if j < i then l.getD j d else l.getD (j + 1) d := by
  induction l generalizing i j with
  | nil => simp at hj
  | cons x xs ih =>
    cases i with
    | zero =>
      rw [if_neg (by omega)]
      simp [List.eraseIdx]
    | succ ii =>
      cases j with
      | zero =>
        rw [if_pos (by omega)]
        simp [List.eraseIdx]
      | succ jj =>
        simp only [List.eraseIdx, List.getD_cons_succ]
        rw [ih ii jj (by simp at hj; omega)]
        by_cases hlt : jj < ii
        · rw [if_pos hlt, if_pos (by omega)]
        · rw [if_neg hlt, if_neg (by omega)]

end Ass3

/-- C4: applying `player_purchased_card` removes the face-up card at
`cardId` and shifts every later card down one position, returns each
spent colour token to the matching board pile (spent wilds reach no
pile), subtracts the spent tuple from the buyer, increments the discount
held by the buyer for the discount colour of the card by exactly one
(other discount slots unchanged), adds the card value to the buyer
score, and leaves every other player untouched. -/
theorem c4_purchase_application (g : Ass3.Game) (playerId cardId : Nat)
    (t : Ass3.TokenVec)
    (hp : playerId < g.players.length) (hc : cardId < g.cards.length) :
    (Ass3.player_purchased_card g playerId cardId t).cards.length =
        g.cards.length - 1
    ∧ (∀ j, j < (Ass3.player_purchased_card g playerId cardId t).cards.length →
        (Ass3.player_purchased_card g playerId cardId t).cards.getD j default =
          if j < cardId then g.cards.getD j default
          else g.cards.getD (j + 1) default)
    ∧ (∀ c, (Ass3.player_purchased_card g playerId cardId t).tokens c =
        g.tokens c + t.colour c)
    ∧ (∀ c,
        ((Ass3.player_purchased_card g playerId cardId t).players.getD
          playerId default).tokens c =
        (g.players.getD playerId default).tokens c - t.colour c)
    ∧ ((Ass3.player_purchased_card g playerId cardId t).players.getD
          playerId default).wildTokens =
        (g.players.getD playerId default).wildTokens - t.wild
    ∧ ((Ass3.player_purchased_card g playerId cardId t).players.getD
          playerId default).discounts (g.cards.getD cardId default).discount =
        (g.players.getD playerId default).discounts
          (g.cards.getD cardId default).discount + 1
    ∧ (∀ c, c ≠ (g.cards.getD cardId default).discount →
        ((Ass3.player_purchased_card g playerId cardId t).players.getD
          playerId default).discounts c =
        (g.players.getD playerId default).discounts c)
    ∧ ((Ass3.player_purchased_card g playerId cardId t).players.getD
          playerId default).totalPoints =
        (g.players.getD playerId default).totalPoints +
          (g.cards.getD cardId default).value
    ∧ (∀ q, q ≠ playerId →
        (Ass3.player_purchased_card g playerId cardId t).players.getD q
          default =
        g.players.getD q default) := by
  have hcards : (Ass3.player_purchased_card g playerId cardId t).cards =
      g.cards.eraseIdx cardId := rfl
  have hlen : (Ass3.player_purchased_card g playerId cardId t).cards.length =
      g.cards.length - 1 := by
    rw [hcards, List.length_eraseIdx, if_pos hc]
  have hbuyer : (Ass3.player_purchased_card g playerId cardId t).players.getD
      playerId default =
      (fun p => Ass3.Player.mk
        (p.totalPoints + (g.cards.getD cardId default).value)
        (fun c => if c = (g.cards.getD cardId default).discount
          then p.discounts c + 1 else p.discounts c)
        (fun c => p.tokens c - t.colour c)
        (p.wildTokens - t.wild)) (g.players.getD playerId default) :=
    Ass3.updateAt_getD_eq playerId _ g.players default hp
  refine ⟨hlen, ?_, ?_, ?_, ?_, ?_, ?_, ?_, ?_⟩
  · intro j hj
    rw [hlen] at hj
    rw [hcards, Ass3.getD_eraseIdx g.cards cardId j default hj]
  · intro c
    rfl
  · intro c
    rw [hbuyer]
  · rw [hbuyer]
  · rw [hbuyer]
    simp
  · intro c hne
    rw [hbuyer]
    simp only [if_neg hne]
  · rw [hbuyer]
  · intro q hq
    exact Ass3.updateAt_getD_ne playerId q _ g.players default hq

/-- Concrete two-player, two-card game instantiating `c4`. -/
def w4game : Ass3.Game :=
  ⟨10, fun _ => 3,
    [⟨Ass3.CardColour.RED, 2, fun _ => 1⟩,
      ⟨Ass3.CardColour.BROWN, 1, fun _ => 0⟩],
    [⟨0, fun _ => 0, fun _ => 1, 1⟩, ⟨0, fun _ => 0, fun _ => 0, 0⟩]⟩

/-- Concrete spent-token tuple for the `c4` witness. -/
def w4tok : Ass3.TokenVec := ⟨fun _ => 1, 0⟩

theorem c4_witness :
    (0 < w4game.players.length ∧ 0 < w4game.cards.length)
    ∧ ((Ass3.player_purchased_card w4game 0 0 w4tok).cards.length =
        w4game.cards.length - 1
    ∧ (∀ j, j < (Ass3.player_purchased_card w4game 0 0 w4tok).cards.length →
        (Ass3.player_purchased_card w4game 0 0 w4tok).cards.getD j default =
          if j < 0 then w4game.cards.getD j default
          else w4game.cards.getD (j + 1) default)
    ∧ (∀ c, (Ass3.player_purchased_card w4game 0 0 w4tok).tokens c =
        w4game.tokens c + w4tok.colour c)
    ∧ (∀ c,
        ((Ass3.player_purchased_card w4game 0 0 w4tok).players.getD
          0 default).tokens c =
        (w4game.players.getD 0 default).tokens c - w4tok.colour c)
    ∧ ((Ass3.player_purchased_card w4game 0 0 w4tok).players.getD
          0 default).wildTokens =
        (w4game.players.getD 0 default).wildTokens - w4tok.wild
    ∧ ((Ass3.player_purchased_card w4game 0 0 w4tok).players.getD
          0 default).discounts (w4game.cards.getD 0 default).discount =
        (w4game.players.getD 0 default).discounts
          (w4game.cards.getD 0 default).discount + 1
    ∧ (∀ c, c ≠ (w4game.cards.getD 0 default).discount →
        ((Ass3.player_purchased_card w4game 0 0 w4tok).players.getD
          0 default).discounts c =
        (w4game.players.getD 0 default).discounts c)
    ∧ ((Ass3.player_purchased_card w4game 0 0 w4tok).players.getD
          0 default).totalPoints =
        (w4game.players.getD 0 default).totalPoints +
          (w4game.cards.getD 0 default).value
    ∧ (∀ q, q ≠ 0 →
        (Ass3.player_purchased_card w4game 0 0 w4tok).players.getD q
          default =
        w4game.players.getD q default)) :=
  ⟨⟨by decide, by decide⟩,
    c4_purchase_application w4game 0 0 w4tok (by decide) (by decide)⟩

namespace Ass4

/-- Modelled from the spec: `read_line` from the course-provided 2310
utility library (not in the repository sources; declared in the library
header `util.h` and used as `read_line(file, &dest, 0)`).  It reads one
line from the current file position: the characters up to but excluding
the next newline, consuming that newline, and returns the number of
characters read, which is 0 for an empty line and negative at end of
file.  A file (from its current position) is a `List Char`; the result
is `none` at end of file and otherwise the line together with the
remaining contents after the consumed newline.  Every caller in the
sources only tests `read_line(...) <= 0`, which under this model is
`none` or an empty line. -/
def read_line : List Char → Option (List Char × List Char)
  | [] => none
  | c :: cs =>
    some ((c :: cs).takeWhile (fun ch => ch != '\n'),
      ((c :: cs).dropWhile (fun ch => ch != '\n')).drop 1)

/-- does_file_end_newline from src/ass4/shared.c (lines 58-73): seeks to
the last character of the file and tests it against a newline.  The file
position is restored, so the result only depends on the whole contents;
for an empty file the seek to offset -1 fails, `fgetc` returns EOF and
the function returns false. -/
def does_file_end_newline (content : List Char) : Bool :=
  content.getLast? == some '\n'

/-- get_keyfile from src/ass4/shared.c (lines 80-99): read one line; fail
if `read_line` returned `<= 0`; then the keyfile is valid exactly when
the file does not end in a newline and the next read hits end of file.
Returns the key on success, mirroring the out-parameter `dest`. -/
def get_keyfile (content : List Char) : Option (List Char) :=
  match read_line content with
  | none => none
  | some (line, rest) =>
    if line = [] then
      none
    else if !does_file_end_newline content && rest.isEmpty then
      some line
    else
      none

lemma length_dropWhile_le {α : Type} (p : α → Bool) (l : List α) :
    (l.dropWhile p).length ≤ l.length := by
  conv_rhs => rw [← List.takeWhile_append_dropWhile p l]
  rw [List.length_append]
  omega

lemma dropWhile_cons_not {α : Type} (p : α → Bool) :
    ∀ (l : List α) (y : α) (ys : List α),
    l.dropWhile p = y :: ys → p y = false := by
  intro l
  induction l with
  | nil =>
    intro y ys h
    simp [List.dropWhile] at h
  | cons x xs ih =>
    intro y ys h
    rw [List.dropWhile_cons] at h
    by_cases hx : p x
    · rw [if_pos hx] at h
      exact ih y ys h
    · rw [if_neg hx] at h
      cases h
      simpa using hx

lemma read_line_rest_lt {content line rest : List Char}
    (h : read_line content = some (line, rest)) :
    rest.length < content.length := by
  cases content with
  | nil => simp [read_line] at h
  | cons c cs =>
    simp only [read_line, Option.some.injEq, Prod.mk.injEq] at h
    rcases h with ⟨hline, hrest⟩
    cases hd : (c :: cs).dropWhile (fun ch => ch != '\n') with
    | nil =>
      rw [hd] at hrest
      subst hrest
      simp
    | cons y ys =>
      rw [hd] at hrest
      have hr : rest = ys := by
        rw [← hrest]
        rfl
      have hlen : (y :: ys).length ≤ (c :: cs).length := by
        rw [← hd]
        exact length_dropWhile_le _ _
      rw [hr]
      simp at hlen ⊢
      omega

lemma get_keyfile_eq (content : List Char) :
    get_keyfile content =
      if content = [] ∨ '\n' ∈ content then none else some content := by
  cases content with
  | nil => simp [get_keyfile, read_line]
  | cons c cs =>
    by_cases hcn : c = '\n'
    · subst hcn
      rw [if_pos (Or.inr (List.mem_cons_self _ _))]
      simp [get_keyfile, read_line, List.takeWhile_cons]
    · have hpc : (c != '\n') = true := by simp [hcn]
      by_cases hmem : '\n' ∈ cs
      · rw [if_pos (Or.inr (List.mem_cons_of_mem c hmem))]
        cases hd : cs.dropWhile (fun ch => ch != '\n') with
        | nil =>
          exfalso
          have hall := List.dropWhile_eq_nil_iff.mp hd '\n' hmem
          simp at hall
        | cons y ys =>
          have hy : y = '\n' := by
            have h2 := dropWhile_cons_not (fun ch => ch != '\n') cs y ys hd
            simpa using h2
          subst hy
          cases ys with
          | nil =>
            have hsplit : cs =
                cs.takeWhile (fun ch => ch != '\n') ++ ['\n'] := by
              conv_lhs => rw [← List.takeWhile_append_dropWhile
                (fun ch => ch != '\n') cs]
              rw [hd]
            have hlast : does_file_end_newline (c :: cs) = true := by
              rw [does_file_end_newline]
              have h3 : c :: cs =
                  (c :: cs.takeWhile (fun ch => ch != '\n')) ++ ['\n'] := by
                rw [List.cons_append]
                congr 1
              rw [h3, List.getLast?_concat]
              simp
            simp [get_keyfile, read_line, List.takeWhile_cons,
              List.dropWhile_cons, hpc, hd, hlast]
          | cons z zs =>
            simp [get_keyfile, read_line, List.takeWhile_cons,
              List.dropWhile_cons, hpc, hd]
      · rw [if_neg (by
          simp [hmem]
          intro h
          exact hcn h.symm)]
        have htw : cs.takeWhile (fun ch => ch != '\n') = cs := by
          rw [List.takeWhile_eq_self_iff]
          intro x hx
          simp only [bne_iff_ne, ne_eq]
          intro heq
          exact hmem (heq ▸ hx)
        have hdw : cs.dropWhile (fun ch => ch != '\n') = [] := by
          rw [List.dropWhile_eq_nil_iff]
          intro x hx
          simp only [bne_iff_ne, ne_eq]
          intro heq
          exact hmem (heq ▸ hx)
        have hlast : does_file_end_newline (c :: cs) = false := by
          rw [does_file_end_newline]
          cases hg : (c :: cs).getLast? with
          | none => simp
          | some x =>
            have hx : x ∈ c :: cs := List.mem_of_mem_getLast? hg
            have hxne : x ≠ '\n' := by
              rcases List.mem_cons.mp hx with rfl | hx2
              · exact hcn
              · intro heq
                exact hmem (heq ▸ hx2)
            simp [hxne]
        simp [get_keyfile, read_line, List.takeWhile_cons,
          List.dropWhile_cons, hpc, htw, hdw, hlast]

end Ass4

/-- C5 counterexample: the keyfile whose contents are the single
non-empty line `k` terminated by a final newline is rejected by
`get_keyfile` (the claim states such a file must load successfully):
`does_file_end_newline` is true, so the validity conjunction fails. -/
theorem c5_counterexample_trailing_newline :
    Ass4.get_keyfile ['k', '\n'] = none
    ∧ ['k', '\n'] = ['k'] ++ ['\n']
    ∧ (['k'] : List Char) ≠ []
    ∧ '\n' ∉ (['k'] : List Char) := by
  refine ⟨?_, rfl, by decide, by decide⟩
  rfl

/-- C5 amended: keyfile loading succeeds exactly when the file is
non-empty and contains no newline character at all, in which case the
whole contents are returned as the key; a single line terminated by a
final newline is rejected (as are an empty file, an empty first line,
and any embedded newline). -/
theorem c5_keyfile_amended (content : List Char) :
    Ass4.get_keyfile content =
      if content = [] ∨ '\n' ∈ content then none else some content :=
  Ass4.get_keyfile_eq content

namespace Ass4

/-- StatfileEntry struct from server.c (lines 48-58). -/
structure StatfileEntry where
  port : Int
  tokens : Int
  points : Int
  players : Int
deriving DecidableEq, Repr

/-- MAX_PORT from server.c line 26. -/
def MAX_PORT : Int := 65535

/-- MIN_START_TOKENS from server.c line 28. -/
def MIN_START_TOKENS : Int := 1

/-- MIN_WIN from server.c line 29. -/
def MIN_WIN : Int := 1

/-- Modelled from the spec: MIN_PLAYERS comes from the course-provided
2310 library headers (not in the repository sources); the spec constrains
`playerCount ∈ [2, 26]`. -/
def MIN_PLAYERS : Int := 2

/-- Modelled from the spec: MAX_PLAYERS comes from the course-provided
2310 library headers; the spec (and game.h of ass3) puts it at 26. -/
def MAX_PLAYERS : Int := 26

/-- Value of a block of decimal digit characters. -/
def digits_to_nat (ds : List Char) : Nat :=
  ds.foldl (fun acc d => acc * 10 + (d.toNat - 48)) 0

/-- Modelled from the spec: one `%d` conversion of `sscanf` (C standard
library), reading an optionally `-`-signed block of decimal digits and
leaving the remainder of the line; it fails when no digit is present. -/
def parse_int (cs : List Char) : Option (Int × List Char) :=
  match cs with
  | '-' :: rest =>
    if rest.takeWhile Char.isDigit = [] then none
    else some (-(digits_to_nat (rest.takeWhile Char.isDigit) : Int),
      rest.dropWhile Char.isDigit)
  | _ =>
    if cs.takeWhile Char.isDigit = [] then none
    else some ((digits_to_nat (cs.takeWhile Char.isDigit) : Int),
      cs.dropWhile Char.isDigit)

/-- One literal comma of the `sscanf` format string. -/
def expect_comma : List Char → Option (List Char)
  | ',' :: rest => some rest
  | _ => none

/-- Modelled from the spec: `sscanf(line, "%d,%d,%d,%d", ...)` succeeding
with 4 conversions (server.c lines 420-421); characters after the fourth
integer are ignored by `sscanf`, which only reports the conversion
count. -/
def parse_entry (line : List Char) : Option StatfileEntry := do
  let (port, r1) ← parse_int line
  let r2 ← expect_comma r1
  let (tokens, r3) ← parse_int r2
  let r4 ← expect_comma r3
  let (points, r5) ← parse_int r4
  let r6 ← expect_comma r5
  let (players, _) ← parse_int r6
  pure ⟨port, tokens, points, players⟩

/-- Entry range checks of load_statfile (server.c lines 424-429). -/
def entry_ok (e : StatfileEntry) : Bool :=
  !(decide (e.port < 0) || decide (e.port > MAX_PORT) ||
    decide (e.tokens < MIN_START_TOKENS) || decide (e.points < MIN_WIN) ||
    decide (e.players < MIN_PLAYERS) || decide (e.players > MAX_PLAYERS))

/-- Reading loop of load_statfile (server.c lines 409-448): read lines
until `read_line` returns `<= 0` (stop with `valid = true`) or a line
fails the parse or the range checks (stop with `valid = false`);
otherwise append the entry and continue.  The inner duplicate-port scan
of lines 431-438 only `break`s out of its own scan loop and has no
effect on the result, so it has no counterpart here.  `fuel` makes the
recursion structural; each iteration consumes at least one character, so
any `fuel > content.length` is enough and the `fuel = 0` branch is dead
code (see `load_statfile_loop_fuel`). -/
def load_statfile_loop (fuel : Nat) (content : List Char)
    (acc : List StatfileEntry) : Bool × List StatfileEntry :=
  match fuel with
  | 0 => (false, acc)
  | fuel + 1 =>
    match read_line content with
    | none => (true, acc)
    | some (line, rest) =>
      if line = [] then
        (true, acc)
      else
        match parse_entry line with
        | none => (false, acc)
        | some entry =>
          if entry_ok entry then
            load_statfile_loop fuel rest (acc ++ [entry])
          else
            (false, acc)

lemma load_statfile_loop_fuel :
    ∀ (fuel1 fuel2 : Nat) (content : List Char) (acc : List StatfileEntry),
    content.length < fuel1 → content.length < fuel2 →
    load_statfile_loop fuel1 content acc =
      load_statfile_loop fuel2 content acc := by
  intro fuel1
  induction fuel1 with
  | zero =>
    intro fuel2 content acc h1 h2
    omega
  | succ n ih =>
    intro fuel2 content acc h1 h2
    cases fuel2 with
    | zero => omega
    | succ m =>
      rw [load_statfile_loop, load_statfile_loop]
      cases hr : read_line content with
      | none => rfl
      | some pair =>
        rcases pair with ⟨line, rest⟩
        dsimp only
        have hlt : rest.length < content.length := read_line_rest_lt hr
        by_cases hline : line = []
        · rw [if_pos hline, if_pos hline]
        · rw [if_neg hline, if_neg hline]
          cases parse_entry line with
          | none => rfl
          | some entry =>
            dsimp only
            by_cases hok : entry_ok entry
            · rw [if_pos hok, if_pos hok]
              exact ih m rest (acc ++ [entry]) (by omega) (by omega)
            · rw [if_neg hok, if_neg hok]

/-- load_statfile from server.c (lines 403-452), on full file contents:
run the reading loop, then require additionally that the file does not
end with a newline (`valid = valid && !does_file_end_newline(file)`,
line 449).  Success returns the recorded entries (the out-parameters
`server->statfileEntries` / `statfileSize`). -/
def load_statfile (content : List Char) : Option (List StatfileEntry) :=
  let result := load_statfile_loop (content.length + 1) content []
  if result.fst && !does_file_end_newline content then
    some result.snd
  else
    none

end Ass4

/-- C7: `load_statfile` rejects every file whose final character is a
newline, whatever the lines contain (in `main`/`run_server` this makes
the server exit with the bad-statfile code); the empty statfile is
accepted with zero entries, so a statfile can only be accepted when its
final line lacks the trailing newline. -/
theorem c7_statfile_trailing_newline_rejected :
    (∀ content : List Char, Ass4.does_file_end_newline content = true →
      Ass4.load_statfile content = none)
    ∧ Ass4.load_statfile [] = some [] := by
  constructor
  · intro content h
    rw [Ass4.load_statfile]
    simp [h]
  · rfl

theorem c7_witness :
    (Ass4.does_file_end_newline ("0,1,1,2\n".toList) = true
      ∧ Ass4.load_statfile ("0,1,1,2\n".toList) = none)
    ∧ Ass4.load_statfile [] = some [] :=
  ⟨⟨by decide,
    c7_statfile_trailing_newline_rejected.1 ("0,1,1,2\n".toList) (by decide)⟩,
    c7_statfile_trailing_newline_rejected.2⟩

/-- C10: a statfile with two entries carrying the same non-zero port,
each entry individually satisfying the per-entry range checks, loads
successfully and both entries are recorded: the duplicate-port scan in
`load_statfile` never causes a rejection. -/
theorem c10_duplicate_ports_accepted :
    Ass4.load_statfile ("80,1,1,2\n80,2,5,3".toList) =
      some [⟨80, 1, 1, 2⟩, ⟨80, 2, 5, 3⟩]
    ∧ (80 : Int) ≠ 0 := by
  constructor
  · rfl
  · decide

namespace Ass4

/-- Outcome of one `do_what` exchange with the current player, as
classified by `do_what` (server.c lines 727-760), with the result of the
`wait_for_reconnect` call folded into the disconnect case. -/
inductive TurnEvent where
  | protocolError
  | playerClosed (reconnected : Bool)
  | nothingWrong
deriving DecidableEq, Repr

/-- Result of the inner per-turn `while (true)` loop of `run_game_loop`
(server.c lines 775-794).  `continued hadAttempt` means the scripted
events ran out while the loop would still be awaiting another `do_what`
answer, carrying the current strike flag. -/
inductive TurnOutcome where
  | continued (hadAttempt : Bool)
  | moveDone
  | abortedInvalid
  | abortedDisconnect
deriving DecidableEq, Repr

/-- The inner per-turn loop of `run_game_loop` (server.c lines 775-794),
driven by the sequence of `do_what` outcomes for this turn.  `hadAttempt`
is the strike flag declared once per player turn (line 775):
a `PROTOCOL_ERROR` with the flag set stops the game (`invalid{L}` is then
broadcast, lines 804-805); a `PROTOCOL_ERROR` with the flag clear sets it
and loops; a `PLAYER_CLOSED` with a successful reconnect `continue`s the
loop with the flag left as it was; a failed reconnect stops the game
(`disco{L}`); `NOTHING_WRONG` ends the turn normally. -/
def run_turn (hadAttempt : Bool) : List TurnEvent → TurnOutcome
  | [] => TurnOutcome.continued hadAttempt
  | e :: rest =>
    match e with
    | TurnEvent.protocolError =>
      if hadAttempt then TurnOutcome.abortedInvalid else run_turn true rest
    | TurnEvent.playerClosed true => run_turn hadAttempt rest
    | TurnEvent.playerClosed false => TurnOutcome.abortedDisconnect
    | TurnEvent.nothingWrong => TurnOutcome.moveDone

end Ass4

/-- C6 counterexample: a player sends one invalid message, disconnects,
successfully reconnects within the same turn, and sends one more invalid
message; the driver aborts the game with `invalid{L}` because the strike
flag `hadAttempt` survives the reconnect, whereas the claim says that
after a successful reconnect the next invalid message is treated as a
first strike and does not abort the game. -/
theorem c6_counterexample_reconnect_strike :
    Ass4.run_turn false
      [Ass4.TurnEvent.protocolError, Ass4.TurnEvent.playerClosed true,
        Ass4.TurnEvent.protocolError] =
      Ass4.TurnOutcome.abortedInvalid
    ∧ Ass4.TurnOutcome.abortedInvalid ≠ Ass4.TurnOutcome.continued true := by
  exact ⟨rfl, by decide⟩

/-- C6 amended: after a successful reconnect the player is back in the
awaiting-move state with the strike flag unchanged (not cleared): an
invalid message following the reconnect aborts the game with
`invalid{L}` exactly when the player had already sent one invalid
message earlier in the same turn, and counts as a first strike only when
no invalid message had been sent this turn. -/
theorem c6_reconnect_keeps_strike (hadAttempt : Bool)
    (rest : List Ass4.TurnEvent) :
    Ass4.run_turn hadAttempt (Ass4.TurnEvent.playerClosed true :: rest) =
      Ass4.run_turn hadAttempt rest
    ∧ Ass4.run_turn true
        (Ass4.TurnEvent.playerClosed true :: Ass4.TurnEvent.protocolError ::
          rest) = Ass4.TurnOutcome.abortedInvalid
    ∧ Ass4.run_turn false
        (Ass4.TurnEvent.playerClosed true :: Ass4.TurnEvent.protocolError ::
          rest) = Ass4.run_turn true rest := by
  exact ⟨rfl, rfl, rfl⟩

namespace Ass4

/-- Modelled from the spec: TOKEN_MAX from the course-provided 2310
library headers, the size of the per-player token array: five piles,
the four non-wild colours plus the wild pile. -/
def TOKEN_MAX : Nat := 5

/-- struct Player of the 2310 library as the server uses it (name,
playerId, score, five-pile token array); modelled from the spec for the
fields the server reads.  Discount fields are untouched by the claims
under verification and omitted. -/
structure PlayerState where
  name : List Char
  playerId : Int
  score : Int
  tokens : List Int
deriving DecidableEq, Repr

/-- struct GamePlayer from the 2310 library headers as the server uses
it: the player state plus the two transport streams, which have no
counterpart in the embedding. -/
structure GamePlayer where
  state : PlayerState
deriving DecidableEq, Repr

instance : Inhabited GamePlayer := ⟨⟨[], 0, 0, []⟩⟩

/-- count_tokens from src/ass4/shared.c (lines 128-135): sum the first
`numPiles` entries of the token array. -/
def count_tokens (tokenPool : List Int) (numPiles : Nat) : Int :=
  (tokenPool.take numPiles).sum

/-- Insertion step of the comparison sort. -/
def insert_sorted {α : Type} (le : α → α → Bool) (x : α) :
    List α → List α
  | [] => [x]
  | y :: ys => if le x y then x :: y :: ys else y :: insert_sorted le x ys

/-- Modelled from the spec: the server sorts with `qsort` (C standard
library), whose contract is to permute the array into an order agreeing
with the comparison function; insertion sort realises exactly that
contract (`sort_by_perm`, `sort_by_pairwise`). -/
def sort_by {α : Type} (le : α → α → Bool) : List α → List α
  | [] => []
  | x :: xs => insert_sorted le x (sort_by le xs)

lemma insert_sorted_perm {α : Type} (le : α → α → Bool) (x : α)
    (l : List α) : (insert_sorted le x l).Perm (x :: l) := by
  induction l with
  | nil => exact List.Perm.refl _
  | cons y ys ih =>
    rw [insert_sorted]
    by_cases h : le x y
    · rw [if_pos h]
    · rw [if_neg h]
      exact List.Perm.trans (List.Perm.cons y ih) (List.Perm.swap x y ys)

lemma sort_by_perm {α : Type} (le : α → α → Bool) (l : List α) :
    (sort_by le l).Perm l := by
  induction l with
  | nil => exact List.Perm.refl _
  | cons x xs ih =>
    rw [sort_by]
    exact List.Perm.trans (insert_sorted_perm le x (sort_by le xs))
      (List.Perm.cons x ih)

lemma insert_sorted_pairwise {α : Type} (le : α → α → Bool) (P : α → Prop)
    (htot : ∀ a b, P a → P b → le a b = true ∨ le b a = true)
    (htrans : ∀ a b c, P a → P b → P c → le a b = true → le b c = true →
      le a c = true)
    (x : α) (hx : P x) :
    ∀ (l : List α), (∀ y ∈ l, P y) →
    List.Pairwise (fun a b => le a b = true) l →
    List.Pairwise (fun a b => le a b = true) (insert_sorted le x l) := by
  intro l
  induction l with
  | nil =>
    intro _ _
    simp [insert_sorted]
  | cons y ys ih =>
    intro hP hs
    rcases List.pairwise_cons.mp hs with ⟨hy, hys⟩
    rw [insert_sorted]
    by_cases h : le x y = true
    · rw [if_pos h]
      refine List.pairwise_cons.mpr ⟨?_, hs⟩
      intro z hz
      rcases List.mem_cons.mp hz with rfl | hz2
      · exact h
      · exact htrans x y z hx (hP y (List.mem_cons_self y ys))
          (hP z (List.mem_cons_of_mem y hz2)) h (hy z hz2)
    · rw [if_neg h]
      refine List.pairwise_cons.mpr
        ⟨?_, ih (fun z hz => hP z (List.mem_cons_of_mem y hz)) hys⟩
      intro z hz
      have hz2 : z ∈ x :: ys :=
        (insert_sorted_perm le x ys).mem_iff.mp hz
      rcases List.mem_cons.mp hz2 with rfl | hz3
      · rcases htot z y hx (hP y (List.mem_cons_self y ys)) with h1 | h1
        · exact absurd h1 h
        · exact h1
      · exact hy z hz3

lemma sort_by_pairwise {α : Type} (le : α → α → Bool) (P : α → Prop)
    (htot : ∀ a b, P a → P b → le a b = true ∨ le b a = true)
    (htrans : ∀ a b c, P a → P b → P c → le a b = true → le b c = true →
      le a c = true) :
    ∀ (l : List α), (∀ x ∈ l, P x) →
    List.Pairwise (fun a b => le a b = true) (sort_by le l) := by
  intro l
  induction l with
  | nil =>
    intro _
    simp [sort_by]
  | cons x xs ih =>
    intro hP
    rw [sort_by]
    refine insert_sorted_pairwise le P htot htrans x
      (hP x (List.mem_cons_self x xs)) (sort_by le xs) ?_ ?_
    · intro y hy
      exact hP y (List.mem_cons_of_mem x
        ((sort_by_perm le xs).mem_iff.mp hy))
    · exact ih fun y hy => hP y (List.mem_cons_of_mem x hy)

/-- Modelled from the spec: C `strcmp`, comparing strings character by
character by character code, the NUL terminator (code 0) ending each
string. -/
def strcmp : List Char → List Char → Int
  | [], [] => 0
  | [], c2 :: _ => -(c2.toNat : Int)
  | c1 :: _, [] => (c1.toNat : Int)
  | c1 :: r1, c2 :: r2 =>
    if c1 = c2 then strcmp r1 r2 else (c1.toNat : Int) - (c2.toNat : Int)

/-- sort_players from server.c (lines 897-907): alphabetical by name
(`strcmp`); for identical names, by the ids assigned in lobby join
order. -/
def sort_players (a b : GamePlayer) : Int :=
  let nameCompare := strcmp a.state.name b.state.name
  if nameCompare = 0 then a.state.playerId - b.state.playerId
  else nameCompare

/-- Acceptance form of the comparison: `qsort` puts `a` no later than
`b` when the comparison function is non-positive. -/
def players_le (a b : GamePlayer) : Bool :=
  decide (sort_players a b ≤ 0)

/-- One step of the id-reassignment loop of start_game (server.c lines
947-949): `game.players[i].state.playerId = i`. -/
def set_player_id (gp : GamePlayer) (i : Int) : GamePlayer :=
  { gp with state := { gp.state with playerId := i } }

/-- Id-reassignment loop of start_game (server.c lines 947-949). -/
def reassign_ids (i : Nat) : List GamePlayer → List GamePlayer
  | [] => []
  | gp :: rest => set_player_id gp (i : Int) :: reassign_ids (i + 1) rest

/-- Player-ordering portion of start_game (server.c lines 916-962): sort
the lobby players with `sort_players`, then reassign ids 0..n-1 in the
sorted order. -/
def start_game_players (lobbyPlayers : List GamePlayer) : List GamePlayer :=
  reassign_ids 0 (sort_by players_le lobbyPlayers)

/-- The spec ordering of C9: primarily name ascending in `strcmp` order,
secondarily join index (the lobby-assigned id) ascending. -/
def name_join_order (a b : GamePlayer) : Prop :=
  strcmp a.state.name b.state.name < 0 ∨
    (strcmp a.state.name b.state.name = 0 ∧
      a.state.playerId ≤ b.state.playerId)

/-- A C string contains no NUL character. -/
def nul_free (s : List Char) : Prop := ∀ ch ∈ s, ch.toNat ≠ 0

lemma char_toNat_inj {a b : Char} (h : a.toNat = b.toNat) : a = b := by
  have h2 : a.val.toNat = b.val.toNat := h
  exact Char.ext (UInt32.toNat.inj h2)

lemma strcmp_neg : ∀ (a b : List Char), strcmp a b = -strcmp b a := by
  intro a
  induction a with
  | nil =>
    intro b
    cases b with
    | nil => simp [strcmp]
    | cons c2 r2 => simp [strcmp]
  | cons c1 r1 ih =>
    intro b
    cases b with
    | nil => simp [strcmp]
    | cons c2 r2 =>
      rw [strcmp, strcmp]
      by_cases h : c1 = c2
      · subst h
        rw [if_pos rfl, if_pos rfl]
        exact ih r2
      · rw [if_neg h, if_neg fun h2 => h h2.symm]
        ring

lemma strcmp_eq_zero :
    ∀ (a b : List Char), nul_free a → nul_free b →
    (strcmp a b = 0 ↔ a = b) := by
  intro a
  induction a with
  | nil =>
    intro b ha hb
    cases b with
    | nil => simp [strcmp]
    | cons c2 r2 =>
      have hc : c2.toNat ≠ 0 := hb c2 (List.mem_cons_self c2 r2)
      simp only [strcmp]
      constructor
      · intro h
        exfalso
        omega
      · intro h
        exact absurd h (by simp)
  | cons c1 r1 ih =>
    intro b ha hb
    cases b with
    | nil =>
      have hc : c1.toNat ≠ 0 := ha c1 (List.mem_cons_self c1 r1)
      simp only [strcmp]
      constructor
      · intro h
        exfalso
        omega
      · intro h
        exact absurd h (by simp)
    | cons c2 r2 =>
      rw [strcmp]
      by_cases h : c1 = c2
      · subst h
        rw [if_pos rfl]
        rw [ih r2 (fun ch hch => ha ch (List.mem_cons_of_mem c1 hch))
          (fun ch hch => hb ch (List.mem_cons_of_mem c1 hch))]
        constructor
        · intro h2
          rw [h2]
        · intro h2
          exact (List.cons.injEq _ _ _ _).mp h2 |>.2
      · rw [if_neg h]
        constructor
        · intro h2
          exfalso
          have : c1.toNat = c2.toNat := by omega
          exact h (char_toNat_inj this)
        · intro h2
          exact absurd ((List.cons.injEq _ _ _ _).mp h2).1 h

lemma strcmp_trans_lt :
    ∀ (a b c : List Char), nul_free c →
    strcmp a b < 0 → strcmp b c < 0 → strcmp a c < 0 := by
  intro a
  induction a with
  | nil =>
    intro b c hc hab hbc
    cases b with
    | nil => simp [strcmp] at hab
    | cons cb rb =>
      cases c with
      | nil =>
        rw [strcmp] at hbc
        omega
      | cons cc rc =>
        have h0 : cc.toNat ≠ 0 := hc cc (List.mem_cons_self cc rc)
        rw [strcmp]
        omega
  | cons ca ra ih =>
    intro b c hc hab hbc
    cases b with
    | nil =>
      rw [strcmp] at hab
      omega
    | cons cb rb =>
      cases c with
      | nil =>
        rw [strcmp] at hbc
        omega
      | cons cc rc =>
        rw [strcmp] at hab hbc ⊢
        by_cases h1 : ca = cb
        · rw [if_pos h1] at hab
          by_cases h2 : cb = cc
          · rw [if_pos h2] at hbc
            rw [if_pos (h1.trans h2)]
            exact ih rb rc
              (fun ch hch => hc ch (List.mem_cons_of_mem cc hch)) hab hbc
          · rw [if_neg h2] at hbc
            have hne : ca ≠ cc := by
              intro heq
              have : ca.toNat = cc.toNat := by rw [heq]
              subst h1
              omega
            rw [if_neg hne]
            subst h1
            omega
        · rw [if_neg h1] at hab
          by_cases h2 : cb = cc
          · subst h2
            have hne : ca ≠ cb := h1
            rw [if_neg hne]
            omega
          · rw [if_neg h2] at hbc
            have hne : ca ≠ cc := by
              intro heq
              subst heq
              omega
            rw [if_neg hne]
            omega

end Ass4

namespace Ass4

/-- The players whose names are valid C strings (no NUL character). -/
def gp_ok (gp : GamePlayer) : Prop := nul_free gp.state.name

lemma players_le_total (a b : GamePlayer) (_ha : gp_ok a) (_hb : gp_ok b) :
    players_le a b = true ∨ players_le b a = true := by
  simp only [players_le, decide_eq_true_eq, sort_players]
  have hneg : strcmp b.state.name a.state.name =
      -strcmp a.state.name b.state.name := strcmp_neg _ _
  by_cases h : strcmp a.state.name b.state.name = 0
  · rw [if_pos h, if_pos (by omega)]
    omega
  · rw [if_neg h, if_neg (by omega)]
    omega

lemma players_le_trans (a b c : GamePlayer)
    (ha : gp_ok a) (hb : gp_ok b) (hc : gp_ok c)
    (hab : players_le a b = true) (hbc : players_le b c = true) :
    players_le a c = true := by
  simp only [players_le, decide_eq_true_eq, sort_players] at hab hbc ⊢
  by_cases h1 : strcmp a.state.name b.state.name = 0
  · have hname : a.state.name = b.state.name :=
      (strcmp_eq_zero _ _ ha hb).mp h1
    rw [if_pos h1] at hab
    by_cases h2 : strcmp b.state.name c.state.name = 0
    · have hname2 : b.state.name = c.state.name :=
        (strcmp_eq_zero _ _ hb hc).mp h2
      rw [if_pos h2] at hbc
      rw [if_pos (by rw [hname, hname2]; exact (strcmp_eq_zero _ _ hc hc).mpr rfl)]
      omega
    · rw [if_neg h2] at hbc
      rw [hname]
      rw [if_neg h2]
      exact hbc
  · rw [if_neg h1] at hab
    by_cases h2 : strcmp b.state.name c.state.name = 0
    · have hname2 : b.state.name = c.state.name :=
        (strcmp_eq_zero _ _ hb hc).mp h2
      rw [← hname2]
      rw [if_neg h1]
      exact hab
    · rw [if_neg h2] at hbc
      have hlt : strcmp a.state.name c.state.name < 0 :=
        strcmp_trans_lt a.state.name b.state.name c.state.name hc
          (by omega) (by omega)
      rw [if_neg (by omega)]
      omega

lemma players_le_iff (a b : GamePlayer) :
    players_le a b = true ↔ name_join_order a b := by
  simp only [players_le, decide_eq_true_eq, sort_players, name_join_order]
  by_cases h : strcmp a.state.name b.state.name = 0
  · rw [if_pos h]
    constructor
    · intro h2
      exact Or.inr ⟨h, by omega⟩
    · intro h2
      rcases h2 with h2 | h2
      · omega
      · omega
  · rw [if_neg h]
    constructor
    · intro h2
      exact Or.inl (by omega)
    · intro h2
      rcases h2 with h2 | h2
      · omega
      · exact absurd h2.1 h

lemma reassign_ids_length (k : Nat) (ps : List GamePlayer) :
    (reassign_ids k ps).length = ps.length := by
  induction ps generalizing k with
  | nil => rfl
  | cons gp rest ih => simp [reassign_ids, ih]

lemma reassign_ids_getD :
    ∀ (ps : List GamePlayer) (k i : Nat), i < ps.length →
    (reassign_ids k ps).getD i default =
      set_player_id (ps.getD i default) ((k + i : Nat) : Int) := by
  intro ps
  induction ps with
  | nil =>
    intro k i h
    simp at h
  | cons gp rest ih =>
    intro k i h
    cases i with
    | zero => simp [reassign_ids]
    | succ j =>
      simp only [reassign_ids, List.getD_cons_succ]
      rw [ih (k + 1) j (by simpa using h)]
      congr 1
      omega

end Ass4

/-- C9: the players of a game started from a full lobby are the lobby
arrivals sorted primarily by name in ascending `strcmp` order and
secondarily by the lobby join index (the id assigned on joining, so
same-name arrivals keep their arrival order), after which player ids are
reassigned to 0..n-1 in sorted order.  The hypothesis states that the
names are C strings, i.e. NUL-free. -/
theorem c9_player_sorting (lobbyPlayers : List Ass4.GamePlayer)
    (hnul : ∀ gp ∈ lobbyPlayers, Ass4.gp_ok gp) :
    (Ass4.sort_by Ass4.players_le lobbyPlayers).Perm lobbyPlayers
    ∧ List.Pairwise Ass4.name_join_order
        (Ass4.sort_by Ass4.players_le lobbyPlayers)
    ∧ Ass4.start_game_players lobbyPlayers =
        Ass4.reassign_ids 0 (Ass4.sort_by Ass4.players_le lobbyPlayers)
    ∧ (∀ i : Nat, i < lobbyPlayers.length →
        (Ass4.start_game_players lobbyPlayers).getD i default =
          Ass4.set_player_id
            ((Ass4.sort_by Ass4.players_le lobbyPlayers).getD i default)
            (i : Int)) := by
  have hperm := Ass4.sort_by_perm Ass4.players_le lobbyPlayers
  refine ⟨hperm, ?_, rfl, ?_⟩
  · have hpw := Ass4.sort_by_pairwise Ass4.players_le Ass4.gp_ok
      Ass4.players_le_total Ass4.players_le_trans lobbyPlayers hnul
    exact hpw.imp fun h => (Ass4.players_le_iff _ _).mp h
  · intro i hi
    have hlen : (Ass4.sort_by Ass4.players_le lobbyPlayers).length =
        lobbyPlayers.length := hperm.length_eq
    rw [Ass4.start_game_players,
      Ass4.reassign_ids_getD (Ass4.sort_by Ass4.players_le lobbyPlayers) 0 i
        (by omega)]
    congr 1
    omega

/-- Concrete two-player lobby (names out of order) instantiating `c9`. -/
def w9lobby : List Ass4.GamePlayer :=
  [⟨⟨"bob".toList, 0, 0, []⟩⟩, ⟨⟨"alice".toList, 1, 0, []⟩⟩]

theorem c9_witness :
    (∀ gp ∈ w9lobby, Ass4.gp_ok gp)
    ∧ ((Ass4.sort_by Ass4.players_le w9lobby).Perm w9lobby
    ∧ List.Pairwise Ass4.name_join_order
        (Ass4.sort_by Ass4.players_le w9lobby)
    ∧ Ass4.start_game_players w9lobby =
        Ass4.reassign_ids 0 (Ass4.sort_by Ass4.players_le w9lobby)
    ∧ (∀ i : Nat, i < w9lobby.length →
        (Ass4.start_game_players w9lobby).getD i default =
          Ass4.set_player_id
            ((Ass4.sort_by Ass4.players_le w9lobby).getD i default)
            (i : Int))) := by
  have h : ∀ gp ∈ w9lobby, Ass4.gp_ok gp := by
    unfold Ass4.gp_ok Ass4.nul_free
    decide
  exact ⟨h, c9_player_sorting w9lobby h⟩

namespace Ass4

/-- struct PlayerScore from server.c (lines 177-184): one scoreboard row
being accumulated for a distinct player name. -/
structure PlayerScore where
  name : List Char
  tokens : Int
  points : Int
deriving DecidableEq, Repr

/-- score_sort from server.c (lines 607-619): `qsort` comparison function
ordering rows by points descending, ties by tokens ascending. -/
def score_sort (p1 p2 : PlayerScore) : Int :=
  let pointCompare := p2.points - p1.points
  if pointCompare = 0 then p1.tokens - p2.tokens else pointCompare

/-- Acceptance form of the comparison: `qsort` puts `a` no later than
`b` when `score_sort` is non-positive. -/
def score_le (a b : PlayerScore) : Bool :=
  decide (score_sort a b ≤ 0)

/-- The row ordering stated by the spec: total points descending, ties
broken by total tokens ascending. -/
def score_order (a b : PlayerScore) : Prop :=
  b.points < a.points ∨ (a.points = b.points ∧ a.tokens ≤ b.tokens)

/-- Inner accumulation step of print_scores (server.c lines 642-664):
look for an existing row with the name of this player and add the
current token count and score of the player to it; otherwise append a
fresh row.  The
C scans the whole row array and updates the last matching index; row
names are pairwise distinct (`score_entries_ok`), so updating the first
match, as here, is the same row. -/
def add_player_score (p : PlayerState) : List PlayerScore → List PlayerScore
  | [] => [⟨p.name, count_tokens p.tokens TOKEN_MAX, p.score⟩]
  | s :: rest =>
    if s.name = p.name then
      ⟨p.name, s.tokens + count_tokens p.tokens TOKEN_MAX,
        s.points + p.score⟩ :: rest
    else
      s :: add_player_score p rest

/-- Row accumulation of print_scores (server.c lines 640-665): every
player of every past and present game, games in order, players in game
order. -/
def aggregate_scores (games : List (List PlayerState)) : List PlayerScore :=
  games.foldl (fun acc g => g.foldl (fun a p => add_player_score p a) acc) []

/-- All player instances across all past and present games. -/
def all_players (games : List (List PlayerState)) : List PlayerState :=
  games.flatten

/-- Sum of `m` over the player instances carrying name `n`. -/
def name_total (m : PlayerState → Int) (ps : List PlayerState)
    (n : List Char) : Int :=
  ((ps.filter fun p => p.name == n).map m).sum

/-- Total of `count_tokens(player.tokens, TOKEN_MAX)` (all five piles,
wilds included) over every instance of name `n`. -/
def name_total_tokens (ps : List PlayerState) (n : List Char) : Int :=
  name_total (fun p => count_tokens p.tokens TOKEN_MAX) ps n

/-- Total score over every instance of name `n`. -/
def name_total_points (ps : List PlayerState) (n : List Char) : Int :=
  name_total (fun p => p.score) ps n

/-- One `"%s,%d,%d\n"` row of the scoreboard (server.c lines 670-671). -/
def render_score_line (s : PlayerScore) : List Char :=
  s.name ++ [','] ++ (toString s.tokens).toList ++ [','] ++
    (toString s.points).toList

/-- Header row of print_scores (server.c line 627). -/
def scores_header : List Char :=
  "Player Name,Total Tokens,Total Points".toList

/-- print_scores from server.c (lines 626-674): header, then the
accumulated rows sorted with `score_sort` and rendered as CSV. -/
def print_scores (games : List (List PlayerState)) : List (List Char) :=
  scores_header ::
    (sort_by score_le (aggregate_scores games)).map render_score_line

/-- Invariant tying the accumulated rows to the processed player
instances: distinct names, name coverage, and per-name totals. -/
def score_entries_ok (processed : List PlayerState)
    (scores : List PlayerScore) : Prop :=
  (scores.map PlayerScore.name).Nodup
  ∧ (∀ n, (∃ s ∈ scores, s.name = n) ↔ ∃ p ∈ processed, p.name = n)
  ∧ (∀ s ∈ scores, s.tokens = name_total_tokens processed s.name
      ∧ s.points = name_total_points processed s.name)

end Ass4

namespace Ass4

lemma name_total_append_one (m : PlayerState → Int) (pr : List PlayerState)
    (p : PlayerState) (n : List Char) :
    name_total m (pr ++ [p]) n =
      name_total m pr n + (if p.name = n then m p else 0) := by
  unfold name_total
  rw [List.filter_append, List.map_append, List.sum_append]
  congr 1
  by_cases h : p.name = n
  · have hb : (p.name == n) = true := by simpa using h
    simp [List.filter, hb, h]
  · have hb : (p.name == n) = false := by simpa using h
    simp [List.filter, hb, h]

lemma name_total_zero (m : PlayerState → Int) (pr : List PlayerState)
    (n : List Char) (h : ∀ q ∈ pr, q.name ≠ n) :
    name_total m pr n = 0 := by
  unfold name_total
  rw [List.filter_eq_nil_iff.mpr (by
    intro a ha
    simpa using h a ha)]
  rfl

lemma name_total_tokens_append_one (pr : List PlayerState) (p : PlayerState)
    (n : List Char) :
    name_total_tokens (pr ++ [p]) n =
      name_total_tokens pr n +
        (if p.name = n then count_tokens p.tokens TOKEN_MAX else 0) :=
  name_total_append_one _ pr p n

lemma name_total_points_append_one (pr : List PlayerState) (p : PlayerState)
    (n : List Char) :
    name_total_points (pr ++ [p]) n =
      name_total_points pr n + (if p.name = n then p.score else 0) :=
  name_total_append_one _ pr p n

lemma name_total_tokens_zero (pr : List PlayerState) (n : List Char)
    (h : ∀ q ∈ pr, q.name ≠ n) : name_total_tokens pr n = 0 :=
  name_total_zero _ pr n h

lemma name_total_points_zero (pr : List PlayerState) (n : List Char)
    (h : ∀ q ∈ pr, q.name ≠ n) : name_total_points pr n = 0 :=
  name_total_zero _ pr n h

lemma add_player_score_absent (p : PlayerState) :
    ∀ (sc : List PlayerScore), (∀ s ∈ sc, s.name ≠ p.name) →
    add_player_score p sc =
      sc ++ [⟨p.name, count_tokens p.tokens TOKEN_MAX, p.score⟩] := by
  intro sc
  induction sc with
  | nil =>
    intro _
    rfl
  | cons s rest ih =>
    intro h
    rw [add_player_score, if_neg (h s (List.mem_cons_self s rest)),
      ih fun t ht => h t (List.mem_cons_of_mem s ht)]
    rfl

lemma add_player_score_present (p : PlayerState) :
    ∀ (sc : List PlayerScore), (∃ s ∈ sc, s.name = p.name) →
    ∃ pre s post, sc = pre ++ s :: post ∧ s.name = p.name
      ∧ (∀ t ∈ pre, t.name ≠ p.name)
      ∧ add_player_score p sc =
          pre ++ ⟨p.name, s.tokens + count_tokens p.tokens TOKEN_MAX,
            s.points + p.score⟩ :: post := by
  intro sc
  induction sc with
  | nil =>
    intro h
    rcases h with ⟨s, hs, _⟩
    exact absurd hs (List.not_mem_nil s)
  | cons s0 rest ih =>
    intro h
    by_cases h0 : s0.name = p.name
    · refine ⟨[], s0, rest, by simp, h0, by simp, ?_⟩
      rw [add_player_score, if_pos h0]
      rfl
    · have h2 : ∃ s ∈ rest, s.name = p.name := by
        rcases h with ⟨s, hs, hname⟩
        rcases List.mem_cons.mp hs with rfl | hs2
        · exact absurd hname h0
        · exact ⟨s, hs2, hname⟩
      rcases ih h2 with ⟨pre, s, post, hsc, hsn, hpre, heq⟩
      refine ⟨s0 :: pre, s, post, by rw [hsc]; rfl, hsn, ?_, ?_⟩
      · intro t ht
        rcases List.mem_cons.mp ht with rfl | ht2
        · exact h0
        · exact hpre t ht2
      · rw [add_player_score, if_neg h0, heq]
        rfl

lemma score_entries_ok_step (pr : List PlayerState) (sc : List PlayerScore)
    (p : PlayerState) (h : score_entries_ok pr sc) :
    score_entries_ok (pr ++ [p]) (add_player_score p sc) := by
  obtain ⟨hnodup, hmem, htot⟩ := h
  by_cases hp : ∃ s ∈ sc, s.name = p.name
  · rcases add_player_score_present p sc hp with
      ⟨pre, s, post, hsc, hsn, hpre, heq⟩
    have hnames : (add_player_score p sc).map PlayerScore.name =
        sc.map PlayerScore.name := by
      rw [heq, hsc]
      simp [hsn]
    have hppr : ∃ q ∈ pr, q.name = p.name := (hmem p.name).mp hp
    have hpost : ∀ t ∈ post, t.name ≠ p.name := by
      have h2 : (sc.map PlayerScore.name).Nodup := hnodup
      rw [hsc, List.map_append, List.map_cons] at h2
      rcases List.nodup_append.mp h2 with ⟨_, h3, _⟩
      rcases List.nodup_cons.mp h3 with ⟨h4, _⟩
      intro t ht htn
      exact h4 (List.mem_map.mpr ⟨t, ht, by rw [htn, hsn]⟩)
    refine ⟨?_, ?_, ?_⟩
    · rw [hnames]
      exact hnodup
    · intro n
      have hiff : (∃ x ∈ add_player_score p sc, x.name = n) ↔
          (∃ x ∈ sc, x.name = n) := by
        constructor
        · intro hx
          have : n ∈ (add_player_score p sc).map PlayerScore.name :=
            List.mem_map.mpr hx
          rw [hnames] at this
          exact List.mem_map.mp this
        · intro hx
          have : n ∈ sc.map PlayerScore.name := List.mem_map.mpr hx
          rw [← hnames] at this
          exact List.mem_map.mp this
      rw [hiff, hmem n]
      constructor
      · rintro ⟨q, hq, hqn⟩
        exact ⟨q, List.mem_append_left _ hq, hqn⟩
      · rintro ⟨q, hq, hqn⟩
        rcases List.mem_append.mp hq with hq2 | hq2
        · exact ⟨q, hq2, hqn⟩
        · have hq3 : q = p := by simpa using hq2
          subst hq3
          rcases hppr with ⟨q0, hq0, hq0n⟩
          exact ⟨q0, hq0, hq0n.trans hqn⟩
    · intro x hx
      rw [heq] at hx
      rcases List.mem_append.mp hx with hx2 | hx2
      · have hxs : x ∈ sc := by
          rw [hsc]
          exact List.mem_append_left _ hx2
        have hne : p.name ≠ x.name := fun he => hpre x hx2 he.symm
        constructor
        · rw [name_total_tokens_append_one, if_neg hne, add_zero]
          exact (htot x hxs).1
        · rw [name_total_points_append_one, if_neg hne, add_zero]
          exact (htot x hxs).2
      · rcases List.mem_cons.mp hx2 with rfl | hx3
        · have hss : s ∈ sc := by
            rw [hsc]
            exact List.mem_append_right _ (List.mem_cons_self _ _)
          have h5 := (htot s hss).1
          have h6 := (htot s hss).2
          rw [hsn] at h5 h6
          constructor
          · show s.tokens + count_tokens p.tokens TOKEN_MAX =
              name_total_tokens (pr ++ [p]) p.name
            rw [name_total_tokens_append_one, if_pos rfl, h5]
          · show s.points + p.score = name_total_points (pr ++ [p]) p.name
            rw [name_total_points_append_one, if_pos rfl, h6]
        · have hxs : x ∈ sc := by
            rw [hsc]
            exact List.mem_append_right _ (List.mem_cons_of_mem _ hx3)
          have hne : p.name ≠ x.name := fun he => hpost x hx3 he.symm
          constructor
          · rw [name_total_tokens_append_one, if_neg hne, add_zero]
            exact (htot x hxs).1
          · rw [name_total_points_append_one, if_neg hne, add_zero]
            exact (htot x hxs).2
  · push_neg at hp
    have heq := add_player_score_absent p sc hp
    refine ⟨?_, ?_, ?_⟩
    · rw [heq, List.map_append, List.nodup_append]
      refine ⟨hnodup, by simp, ?_⟩
      intro n hn hn2
      have hn3 : n = p.name := by simpa using hn2
      subst hn3
      rcases List.mem_map.mp hn with ⟨s, hs, hsn⟩
      exact hp s hs hsn
    · intro n
      rw [heq]
      constructor
      · rintro ⟨s, hs, rfl⟩
        rcases List.mem_append.mp hs with hs2 | hs2
        · rcases (hmem s.name).mp ⟨s, hs2, rfl⟩ with ⟨q, hq, hqn⟩
          exact ⟨q, List.mem_append_left _ hq, hqn⟩
        · have hs3 : s = ⟨p.name, count_tokens p.tokens TOKEN_MAX,
              p.score⟩ := by simpa using hs2
          subst hs3
          exact ⟨p, List.mem_append_right _ (by simp), rfl⟩
      · rintro ⟨q, hq, hqn⟩
        rcases List.mem_append.mp hq with hq2 | hq2
        · rcases (hmem n).mpr ⟨q, hq2, hqn⟩ with ⟨s, hs, hsn⟩
          exact ⟨s, List.mem_append_left _ hs, hsn⟩
        · have hq3 : q = p := by simpa using hq2
          rw [hq3] at hqn
          exact ⟨⟨p.name, count_tokens p.tokens TOKEN_MAX, p.score⟩,
            List.mem_append_right _ (by simp), hqn⟩
    · intro x hx
      rw [heq] at hx
      rcases List.mem_append.mp hx with hx2 | hx2
      · have hne : p.name ≠ x.name := fun he => hp x hx2 he.symm
        constructor
        · rw [name_total_tokens_append_one, if_neg hne, add_zero]
          exact (htot x hx2).1
        · rw [name_total_points_append_one, if_neg hne, add_zero]
          exact (htot x hx2).2
      · have hx3 : x = ⟨p.name, count_tokens p.tokens TOKEN_MAX,
            p.score⟩ := by simpa using hx2
        subst hx3
        have hnopr : ∀ q ∈ pr, q.name ≠ p.name := by
          intro q hq hqn
          have : ∃ s ∈ sc, s.name = p.name := (hmem p.name).mpr ⟨q, hq, hqn⟩
          rcases this with ⟨s, hs, hsn⟩
          exact hp s hs hsn
        constructor
        · show count_tokens p.tokens TOKEN_MAX =
            name_total_tokens (pr ++ [p]) p.name
          rw [name_total_tokens_append_one, if_pos rfl,
            name_total_tokens_zero pr p.name hnopr, zero_add]
        · show p.score = name_total_points (pr ++ [p]) p.name
          rw [name_total_points_append_one, if_pos rfl,
            name_total_points_zero pr p.name hnopr, zero_add]

lemma score_fold_ok :
    ∀ (ps pr : List PlayerState) (sc : List PlayerScore),
    score_entries_ok pr sc →
    score_entries_ok (pr ++ ps)
      (ps.foldl (fun acc p => add_player_score p acc) sc) := by
  intro ps
  induction ps with
  | nil =>
    intro pr sc h
    simpa using h
  | cons p rest ih =>
    intro pr sc h
    have h2 := ih (pr ++ [p]) (add_player_score p sc)
      (score_entries_ok_step pr sc p h)
    rw [List.append_assoc] at h2
    simpa using h2

lemma aggregate_scores_eq (games : List (List PlayerState)) :
    aggregate_scores games =
      (all_players games).foldl (fun acc p => add_player_score p acc) [] := by
  rw [aggregate_scores, all_players, List.foldl_flatten]

lemma aggregate_ok (games : List (List PlayerState)) :
    score_entries_ok (all_players games) (aggregate_scores games) := by
  have h0 : score_entries_ok [] [] := by
    refine ⟨List.nodup_nil, ?_, ?_⟩
    · intro n
      simp
    · intro s hs
      exact absurd hs (List.not_mem_nil s)
  have h := score_fold_ok (all_players games) [] [] h0
  rw [aggregate_scores_eq]
  simpa using h

lemma score_le_total (a b : PlayerScore) :
    score_le a b = true ∨ score_le b a = true := by
  simp only [score_le, decide_eq_true_eq, score_sort]
  by_cases h : b.points - a.points = 0
  · rw [if_pos h, if_pos (by omega)]
    omega
  · rw [if_neg h, if_neg (by omega)]
    omega

lemma score_le_trans (a b c : PlayerScore)
    (hab : score_le a b = true) (hbc : score_le b c = true) :
    score_le a c = true := by
  simp only [score_le, decide_eq_true_eq, score_sort] at hab hbc ⊢
  split_ifs at hab hbc ⊢ <;> omega

lemma score_le_iff (a b : PlayerScore) :
    score_le a b = true ↔ score_order a b := by
  simp only [score_le, decide_eq_true_eq, score_sort, score_order]
  split_ifs with h <;> omega

end Ass4

/-- C8: the scoreboard output is the header line
`Player Name,Total Tokens,Total Points` followed by exactly one CSV row
per distinct player name occurring in any past or present game; the row
of a name sums its current token counts over all five piles (wilds
included)
and its scores across every game instance carrying that name; and the
rows are ordered by total points descending with ties broken by total
tokens ascending. -/
theorem c8_scoreboard (games : List (List Ass4.PlayerState)) :
    Ass4.print_scores games =
      Ass4.scores_header ::
        (Ass4.sort_by Ass4.score_le (Ass4.aggregate_scores games)).map
          Ass4.render_score_line
    ∧ (Ass4.sort_by Ass4.score_le (Ass4.aggregate_scores games)).Perm
        (Ass4.aggregate_scores games)
    ∧ ((Ass4.aggregate_scores games).map Ass4.PlayerScore.name).Nodup
    ∧ (∀ n, (∃ s ∈ Ass4.aggregate_scores games, s.name = n) ↔
        ∃ p ∈ Ass4.all_players games, p.name = n)
    ∧ (∀ s ∈ Ass4.aggregate_scores games,
        s.tokens = Ass4.name_total_tokens (Ass4.all_players games) s.name
        ∧ s.points = Ass4.name_total_points (Ass4.all_players games) s.name)
    ∧ List.Pairwise Ass4.score_order
        (Ass4.sort_by Ass4.score_le (Ass4.aggregate_scores games)) := by
  obtain ⟨hnodup, hmem, htot⟩ := Ass4.aggregate_ok games
  refine ⟨rfl, Ass4.sort_by_perm _ _, hnodup, hmem, htot, ?_⟩
  have hpw := Ass4.sort_by_pairwise Ass4.score_le (fun _ => True)
    (fun a b _ _ => Ass4.score_le_total a b)
    (fun a b c _ _ _ hab hbc => Ass4.score_le_trans a b c hab hbc)
    (Ass4.aggregate_scores games) (fun _ _ => trivial)
  exact hpw.imp fun h => (Ass4.score_le_iff _ _).mp h
